import Mathlib

/-!
Shallow embedding of the pipeline-reassembly program (src/main.rs).

The program parses space-separated records `pipeline_id id encoding body next_id`,
routes each record to a per-stream `Pipeline` state machine held in a registry,
decodes payloads (Ascii identity or Hex→UTF-8), accumulates decoded messages in a
binary max-heap ordered by message id alone, and renders pipelines in ascending id
order with each pipeline's messages listed via the heap's `into_sorted_vec`.

Numeric parsing mirrors Rust's `u8::from_str` / `i16::from_str`; the heap mirrors
Rust's `std::collections::BinaryHeap` (`push` = append + sift-up;
`into_sorted_vec` = repeated swap-to-end + sift-down).
-/

/-- Value of one decimal digit string (all chars must be ASCII digits, nonempty),
mirroring the digit loop of Rust's integer `FromStr`. -/
def digitsVal (cs : List Char) : Option Nat :=
  if cs.isEmpty then none
  else cs.foldl (fun acc c => acc.bind (fun n => if c.isDigit then some (10 * n + (c.toNat - 48)) else none)) (some 0)

/-- The unsigned-integer literal denoted by a token: optional leading `+`, then digits.
A leading `-` is rejected, as in Rust's unsigned `FromStr`. -/
def tokenNat (s : String) : Option Nat :=
  match s.data with
  | '+' :: rest => digitsVal rest
  | cs => digitsVal cs

/-- The signed-integer literal denoted by a token: optional sign, then digits
(arbitrary precision; no width restriction). -/
def tokenInt (s : String) : Option Int :=
  match s.data with
  | '-' :: rest => (digitsVal rest).map (fun n => -(n : Int))
  | '+' :: rest => (digitsVal rest).map (fun n => (n : Int))
  | cs => (digitsVal cs).map (fun n => (n : Int))

/-- Rust `u8::from_str`: the token's unsigned literal, required to fit in a byte. -/
def parseU8 (s : String) : Option Nat :=
  (tokenNat s).bind (fun n => if n ≤ 255 then some n else none)

/-- Rust `i16::from_str`: the token's signed literal, required to fit in 16 bits. -/
def parseI16 (s : String) : Option Int :=
  (tokenInt s).bind (fun n => if -32768 ≤ n ∧ n ≤ 32767 then some n else none)

/-- The two payload encodings (`#[repr(u8)] enum Encoding`). -/
inductive Encoding
  | ascii
  | hex
deriving DecidableEq, Repr

/-- `impl TryFrom<u8> for Encoding`: 0 is Ascii, 1 is Hex, anything else errors. -/
def Encoding.tryFrom (value : Nat) : Option Encoding :=
  if value = 0 then some Encoding.ascii
  else if value = 1 then some Encoding.hex
  else none

/-- Value of a single hex digit character, case-insensitive (hex crate). -/
def hexVal (c : Char) : Option Nat :=
  if '0' ≤ c ∧ c ≤ '9' then some (c.toNat - 48)
  else if 'a' ≤ c ∧ c ≤ 'f' then some (c.toNat - 87)
  else if 'A' ≤ c ∧ c ≤ 'F' then some (c.toNat - 55)
  else none

/-- `hex::decode`: pairs of hex digits to bytes; fails on odd length or a non-hex char. -/
def hexBytes : List Char → Option (List Nat)
  | [] => some []
  | [_] => none
  | c1 :: c2 :: rest =>
    match hexVal c1, hexVal c2, hexBytes rest with
    | some h, some lo, some bs => some ((16 * h + lo) :: bs)
    | _, _, _ => none

/-- A UTF-8 continuation byte (0x80..=0xBF). -/
def contOk (b : Nat) : Bool := 128 ≤ b && b ≤ 191

/-- Strict UTF-8 validation and decoding of a byte list, as in Rust's
`String::from_utf8` (rejects overlong forms, surrogates and values above 0x10FFFF). -/
def utf8Chars (l : List Nat) : Option (List Char) :=
  match l with
  | [] => some []
  | b :: bs =>
    if b ≤ 0x7F then (utf8Chars bs).map (fun cs => Char.ofNat b :: cs)
    else if 0xC2 ≤ b ∧ b ≤ 0xDF then
      match bs with
      | b1 :: bs2 =>
        if contOk b1 then
          (utf8Chars bs2).map (fun cs => Char.ofNat ((b - 0xC0) * 64 + (b1 - 0x80)) :: cs)
        else none
      | [] => none
    else if 0xE0 ≤ b ∧ b ≤ 0xEF then
      match bs with
      | b1 :: b2 :: bs2 =>
        if ((if b = 0xE0 then 0xA0 else 0x80) ≤ b1 ∧ b1 ≤ (if b = 0xED then 0x9F else 0xBF))
            ∧ contOk b2 then
          (utf8Chars bs2).map
            (fun cs => Char.ofNat ((b - 0xE0) * 4096 + (b1 - 0x80) * 64 + (b2 - 0x80)) :: cs)
        else none
      | _ => none
    else if 0xF0 ≤ b ∧ b ≤ 0xF4 then
      match bs with
      | b1 :: b2 :: b3 :: bs2 =>
        if ((if b = 0xF0 then 0x90 else 0x80) ≤ b1 ∧ b1 ≤ (if b = 0xF4 then 0x8F else 0xBF))
            ∧ contOk b2 ∧ contOk b3 then
          (utf8Chars bs2).map
            (fun cs =>
              Char.ofNat ((b - 0xF0) * 262144 + (b1 - 0x80) * 4096 + (b2 - 0x80) * 64 + (b3 - 0x80)) :: cs)
        else none
      | _ => none
    else none

/-- `Encoding::decode`: Ascii is the identity; Hex decodes hex digits to bytes and
then interprets them as UTF-8 text. -/
def Encoding.decode (enc : Encoding) (msg : String) : Option String :=
  match enc with
  | Encoding.ascii => some msg
  | Encoding.hex =>
    match hexBytes msg.data with
    | some bs =>
      match utf8Chars bs with
      | some cs => some (String.mk cs)
      | none => none
    | none => none

/-- A stored message (`struct Message`); its ordering key is `id` alone. -/
structure Message where
  id : Nat
  body : String
deriving DecidableEq, Repr, Inhabited

/-- `impl TryFrom<(u8, Encoding, String)> for Message`: decode the payload, keep the id. -/
def Message.tryFrom (id : Nat) (encoding : Encoding) (msg : String) : Option Message :=
  (encoding.decode msg).map (fun body => { id := id, body := body })

/-- A parsed input record (`struct ParsedMessage`). -/
structure ParsedMessage where
  pipeline_id : Nat
  id : Nat
  encoding : Encoding
  message : String
  next_id : Option Nat
deriving DecidableEq, Repr

/-- The spec's parse-failure taxonomy: malformed line (missing token or integer
parse failure), unknown encoding byte, or next id outside [-1, 255]. -/
inductive ParseError
  | malformed
  | unknownEncoding
  | invalidNextId
deriving DecidableEq, Repr

/-- Lift an optional value into the parser's error monad (`ok_or` / `?` on a
missing token or a failed integer parse). -/
def req {α : Type} (o : Option α) : Except ParseError α :=
  match o with
  | some v => Except.ok v
  | none => Except.error ParseError.malformed

/-- `ParsedMessage::parse` on the already-split token list, fetching tokens in
source order (the encoding is converted before the body and next id tokens are
fetched, so an unknown encoding masks later failures). -/
def parseTokens (tokens : List String) : Except ParseError ParsedMessage := do
  let t0 ← req tokens[0]?
  let pid ← req (parseU8 t0)
  let t1 ← req tokens[1]?
  let mid ← req (parseU8 t1)
  let t2 ← req tokens[2]?
  let eb ← req (parseU8 t2)
  let enc ← match Encoding.tryFrom eb with
    | some e => Except.ok e
    | none => Except.error ParseError.unknownEncoding
  let t3 ← req tokens[3]?
  let t4 ← req tokens[4]?
  let n ← req (parseI16 t4)
  let nid ← if n = -1 then Except.ok (none : Option Nat)
    else if 0 ≤ n ∧ n ≤ 255 then Except.ok (some n.toNat)
    else Except.error ParseError.invalidNextId
  Except.ok { pipeline_id := pid, id := mid, encoding := enc, message := t3, next_id := nid }

/-- `str::split(" ")` on the character list: split at every single space,
keeping empty pieces (the empty input yields one empty piece). -/
def splitSpaces (cs : List Char) : List (List Char) :=
  match cs with
  | [] => [[]]
  | ' ' :: rest => [] :: splitSpaces rest
  | c :: rest =>
    match splitSpaces rest with
    | t :: ts => (c :: t) :: ts
    | [] => [[c]]

/-- The token list of an input line, as produced by `line.split(" ")`. -/
def splitLine (line : String) : List String :=
  (splitSpaces line.data).map (fun cs => String.mk cs)

/-- `ParsedMessage::parse`: split the line on single spaces (keeping empty
tokens) and parse the leading five tokens. -/
def ParsedMessage.parse (line : String) : Except ParseError ParsedMessage :=
  parseTokens (splitLine line)

/-- Element of the heap's backing vector, defaulting out of range. -/
def hget (l : List Message) (i : Nat) : Message := l.getD i default

/-- Swap two positions of the heap's backing vector. -/
def swapL (l : List Message) (i j : Nat) : List Message :=
  (l.set i (hget l j)).set j (hget l i)

/-- `BinaryHeap::sift_up` starting from position `pos` (start bound 0): while the
element is strictly greater than its parent (comparison on `Message` is by `id`),
move it up. The first argument is recursion fuel; the loop moves from `pos` to its
parent `(pos - 1) / 2` (written `pos / 2` for position `pos + 1`), so `pos` steps
always suffice and the fuel-exhausted clause is unreachable from `siftUp`. -/
def siftUpF : Nat → List Message → Nat → List Message
  | _, l, 0 => l
  | 0, l, _ + 1 => l
  | fuel + 1, l, pos + 1 =>
    if (hget l (pos / 2)).id < (hget l (pos + 1)).id then
      siftUpF fuel (swapL l (pos + 1) (pos / 2)) (pos / 2)
    else l

/-- `BinaryHeap::sift_up` from position `pos`. -/
def siftUp (l : List Message) (pos : Nat) : List Message :=
  siftUpF pos l pos

/-- `BinaryHeap::push`: append the element, then sift it up from the last position. -/
def heapPush (l : List Message) (m : Message) : List Message :=
  siftUp (l ++ [m]) l.length

/-- `BinaryHeap::sift_down_range` within `[0, e)`: pick the greater child (the
right one on a tie), stop when the element is not smaller, else swap and continue;
a lone left child at `e - 1` is handled by the trailing conditional swap. The
first argument is recursion fuel; each iteration moves `pos` past `2 * pos + 1`,
so `e - pos` steps always suffice and fuel exhaustion is unreachable from
`siftDown`. -/
def siftDownF : Nat → List Message → Nat → Nat → List Message
  | 0, l, _, _ => l
  | fuel + 1, l, pos, e =>
    if 2 * pos + 1 + 2 ≤ e then
      if (hget l (2 * pos + 1)).id ≤ (hget l (2 * pos + 2)).id then
        if (hget l (2 * pos + 2)).id ≤ (hget l pos).id then l
        else siftDownF fuel (swapL l pos (2 * pos + 2)) (2 * pos + 2) e
      else
        if (hget l (2 * pos + 1)).id ≤ (hget l pos).id then l
        else siftDownF fuel (swapL l pos (2 * pos + 1)) (2 * pos + 1) e
    else if 2 * pos + 1 + 1 = e ∧ (hget l pos).id < (hget l (2 * pos + 1)).id then
      swapL l pos (2 * pos + 1)
    else l

/-- `BinaryHeap::sift_down_range` of the element at `pos` within `[0, e)`. -/
def siftDown (l : List Message) (pos e : Nat) : List Message :=
  siftDownF (e - pos) l pos e

/-- The extraction loop of `BinaryHeap::into_sorted_vec`: while `e > 1`, decrement
`e`, swap the root with position `e`, and sift the new root down within `[0, e)`.
The fuel argument only needs to be at least `e`. -/
def heapExtractF : Nat → List Message → Nat → List Message
  | 0, l, _ => l
  | fuel + 1, l, e =>
    if e ≤ 1 then l
    else heapExtractF fuel (siftDown (swapL l 0 (e - 1)) 0 (e - 1)) (e - 1)

/-- `BinaryHeap::into_sorted_vec`: run the extraction loop from the full length. -/
def intoSortedVec (l : List Message) : List Message :=
  heapExtractF l.length l l.length

/-- Per-stream state (`struct Pipeline`): id, expected next id, closed flag, and
the message heap's backing vector in level order. -/
structure Pipeline where
  id : Nat
  next_id : Option Nat
  closed : Bool
  message : List Message
deriving DecidableEq, Repr, Inhabited

/-- `Pipeline::new`: the given id and `Default` for the rest (no expectation,
open, empty heap). -/
def Pipeline.new (id : Nat) : Pipeline :=
  { id := id, next_id := none, closed := false, message := [] }

/-- Registry configuration (`struct PipelinesConfig`). -/
structure PipelinesConfig where
  discard_invalid_next_id : Bool
deriving DecidableEq, Repr

/-- The registry (`struct Pipelines`): the map from pipeline id to `Pipeline`,
modelled as an association list with distinct keys, plus the config. -/
structure Pipelines where
  inner : List (Nat × Pipeline)
  config : PipelinesConfig
deriving DecidableEq, Repr

/-- `Pipelines::new`: empty map with the given config. -/
def Pipelines.new (config : PipelinesConfig) : Pipelines :=
  { inner := [], config := config }

/-- `HashMap::get`: the pipeline stored under a key, if any. -/
def plookup (m : List (Nat × Pipeline)) (k : Nat) : Option Pipeline :=
  match m with
  | [] => none
  | (k1, p) :: rest => if k1 = k then some p else plookup rest k

/-- Store a pipeline under a key: replace the existing entry or append a new one
(`HashMap::entry().or_insert()` followed by in-place mutation). -/
def pupdate (m : List (Nat × Pipeline)) (k : Nat) (p : Pipeline) : List (Nat × Pipeline) :=
  match m with
  | [] => [(k, p)]
  | (k1, q) :: rest => if k1 = k then (k1, p) :: rest else (k1, q) :: pupdate rest k p

/-- The discard-policy check: with an expectation `Some(e)` set, a record whose id
differs from `e` is dropped exactly when `discard_invalid_next_id` is on. -/
def discardGate (p : Pipeline) (msg : ParsedMessage) (cfg : PipelinesConfig) : Bool :=
  match p.next_id with
  | some e => msg.id != e && cfg.discard_invalid_next_id
  | none => false

/-- The body of `Pipelines::insert_message` acting on the resolved pipeline:
closed short-circuit, discard-policy check, payload decode (a failed decode
stores nothing), then unconditionally advance `next_id` and close on `None`. -/
def Pipeline.applyRecord (cfg : PipelinesConfig) (p : Pipeline) (msg : ParsedMessage) : Pipeline :=
  if p.closed then p
  else if discardGate p msg cfg then p
  else
    let p1 := match Message.tryFrom msg.id msg.encoding msg.message with
      | some m => { p with message := heapPush p.message m }
      | none => p
    let p2 := { p1 with next_id := msg.next_id }
    if msg.next_id.isNone then { p2 with closed := true } else p2

/-- `Pipelines::insert_message`: resolve (create-if-absent) the pipeline for the
record's pipeline id and apply the record to it. -/
def Pipelines.insert_message (ps : Pipelines) (msg : ParsedMessage) : Pipelines :=
  let p0 := (plookup ps.inner msg.pipeline_id).getD (Pipeline.new msg.pipeline_id)
  { ps with inner := pupdate ps.inner msg.pipeline_id (Pipeline.applyRecord ps.config p0 msg) }

/-- The registry's keys in ascending numeric order (`keys().sort_unstable()`;
the keys are distinct, so any comparison sort yields this list). -/
def Pipelines.sortedKeys (ps : Pipelines) : List Nat :=
  List.insertionSort (fun a b => a ≤ b) (ps.inner.map Prod.fst)

/-- The structured content of `Pipelines::display`: for each key in ascending
order, the stored pipeline's id and its messages as listed by `into_sorted_vec`. -/
def Pipelines.displayBlocks (ps : Pipelines) : List (Nat × List Message) :=
  ps.sortedKeys.filterMap (fun k =>
    (plookup ps.inner k).map (fun p => (p.id, intoSortedVec p.message)))

/-- `Pipelines::display`: a `Pipeline:<id>` header line per block, then one
`\t<id>| <body>` line per message. -/
def Pipelines.display (ps : Pipelines) : String :=
  String.join (ps.displayBlocks.map (fun b =>
    "Pipeline:" ++ toString b.1 ++ "\n" ++
      String.join (b.2.map (fun m => "\t" ++ toString m.id ++ "| " ++ m.body ++ "\n"))))

/-- The per-line step of `main`: parse the line and insert on success; a failed
parse leaves the registry untouched. -/
def Pipelines.processLine (ps : Pipelines) (line : String) : Pipelines :=
  match ParsedMessage.parse line with
  | Except.ok msg => ps.insert_message msg
  | Except.error _ => ps

/-- The registry reached by inserting a list of parsed records into a fresh
registry, one at a time in order. -/
def Pipelines.applyAll (cfg : PipelinesConfig) (msgs : List ParsedMessage) : Pipelines :=
  msgs.foldl Pipelines.insert_message (Pipelines.new cfg)

/-- The binary max-heap shape on the first `e` positions of the backing vector:
every non-root position holds a key no greater than its parent's. -/
def IsHeapUpTo (l : List Message) (e : Nat) : Prop :=
  ∀ i, 0 < i → i < e → (hget l i).id ≤ (hget l ((i - 1) / 2)).id

/-- The heap shape on the whole backing vector (the `BinaryHeap` invariant). -/
def IsHeap (l : List Message) : Prop := IsHeapUpTo l l.length

/-- Sift-up loop invariant: the heap shape holds everywhere except possibly at the
hole `pos`, and the hole's children are dominated by the hole's grandparent. -/
def HeapExceptUp (l : List Message) (pos : Nat) : Prop :=
  (∀ i, 0 < i → i < l.length → i ≠ pos → (hget l i).id ≤ (hget l ((i - 1) / 2)).id) ∧
  (∀ i, 0 < i → i < l.length → (i - 1) / 2 = pos → 0 < pos →
    (hget l i).id ≤ (hget l ((pos - 1) / 2)).id)

/-- Sift-down loop invariant within `[0, e)`: the heap shape holds on every edge
whose parent is not the hole `pos`, and the hole's children are dominated by the
hole's grandparent. -/
def HeapExceptDown (l : List Message) (e pos : Nat) : Prop :=
  (∀ i, 0 < i → i < e → (i - 1) / 2 ≠ pos → (hget l i).id ≤ (hget l ((i - 1) / 2)).id) ∧
  (∀ i, 0 < i → i < e → (i - 1) / 2 = pos → 0 < pos →
    (hget l i).id ≤ (hget l ((pos - 1) / 2)).id)

/-- Extraction loop invariant: positions from `e` on are sorted by key. -/
def SortedTail (l : List Message) (e : Nat) : Prop :=
  ∀ i j, e ≤ i → i ≤ j → j < l.length → (hget l i).id ≤ (hget l j).id

/-- Extraction loop invariant: every key before `e` is at most every key from `e` on. -/
def PrefixLeTail (l : List Message) (e : Nat) : Prop :=
  ∀ i j, i < e → e ≤ j → j < l.length → (hget l i).id ≤ (hget l j).id

/-- Index-wise sortedness of the whole vector by key. -/
def SortedIdx (l : List Message) : Prop :=
  ∀ i j, i ≤ j → j < l.length → (hget l i).id ≤ (hget l j).id

/-- The invariant of a stored pipeline: its id field equals its key in the map, a
closed pipeline has no expectation, and its message vector is a heap. -/
def GoodPipeline (k : Nat) (p : Pipeline) : Prop :=
  p.id = k ∧ (p.closed = true → p.next_id = none) ∧ IsHeap p.message

/-- The registry invariant: distinct keys, each entry satisfying `GoodPipeline`. -/
def GoodState (ps : Pipelines) : Prop :=
  (ps.inner.map Prod.fst).Nodup ∧ ∀ k p, plookup ps.inner k = some p → GoodPipeline k p

example : ParsedMessage.parse "2 1 1 4F4B 5" =
    Except.ok { pipeline_id := 2, id := 1, encoding := Encoding.hex, message := "4F4B", next_id := some 5 } := rfl

example : ParsedMessage.parse "1 0 0 some_text -1" =
    Except.ok { pipeline_id := 1, id := 0, encoding := Encoding.ascii, message := "some_text", next_id := none } := rfl

example : ParsedMessage.parse "err" = Except.error ParseError.malformed := rfl

example : ParsedMessage.parse "12 8 m..." = Except.error ParseError.malformed := rfl

example : ParsedMessage.parse "1 2 7 x 3" = Except.error ParseError.unknownEncoding := rfl

example : ParsedMessage.parse "1 2 0 x 300" = Except.error ParseError.invalidNextId := rfl

example : ParsedMessage.parse "1 2 0 x 32768" = Except.error ParseError.malformed := rfl

example : Encoding.decode Encoding.hex "4F4B" = some "OK" := rfl

example : Encoding.decode Encoding.hex "4F4" = none := rfl

example : Encoding.decode Encoding.hex "66616E63792031335F31" = some "fancy 13_1" := rfl

example :
    intoSortedVec (heapPush (heapPush [] { id := 5, body := "a" }) { id := 5, body := "b" }) =
      [{ id := 5, body := "b" }, { id := 5, body := "a" }] := rfl


example :
    (Pipelines.applyAll { discard_invalid_next_id := false }
      [{ pipeline_id := 1, id := 0, encoding := Encoding.ascii, message := "hello", next_id := some 1 },
       { pipeline_id := 1, id := 1, encoding := Encoding.ascii, message := "world", next_id := none }]).displayBlocks
      = [(1, [{ id := 0, body := "hello" }, { id := 1, body := "world" }])] := rfl

example :
    (Pipelines.applyAll { discard_invalid_next_id := false }
      [{ pipeline_id := 1, id := 0, encoding := Encoding.ascii, message := "a", next_id := some 1 },
       { pipeline_id := 2, id := 9, encoding := Encoding.ascii, message := "c", next_id := some 2 },
       { pipeline_id := 1, id := 5, encoding := Encoding.ascii, message := "b", next_id := some 2 }]).displayBlocks
      = [(1, [{ id := 0, body := "a" }, { id := 5, body := "b" }]),
         (2, [{ id := 9, body := "c" }])] := rfl

example :
    (Pipelines.processLine (Pipelines.processLine (Pipelines.new { discard_invalid_next_id := false })
      "13 1 1 66616E63792031335F31 2") "13 2 1 66616E63792074657874 -1").display
      = "Pipeline:13\n\t1| fancy 13_1\n\t2| fancy text\n" := rfl

theorem hget_eq_getElem (l : List Message) (i : Nat) (h : i < l.length) : hget l i = l[i] :=
  List.getD_eq_getElem l default h

theorem length_swapL (l : List Message) (i j : Nat) : (swapL l i j).length = l.length := by
  simp [swapL]

theorem hget_swapL (l : List Message) (i j k : Nat) (hi : i < l.length) (hj : j < l.length) :
    hget (swapL l i j) k =
      if k = j then hget l i else if k = i then hget l j else hget l k := by
  unfold swapL hget
  by_cases hkj : k = j
  · subst hkj
    simp [List.getD_eq_getElem?_getD, List.getElem?_set, List.length_set, hj]
  · by_cases hki : k = i
    · subst hki
      simp [List.getD_eq_getElem?_getD, List.getElem?_set, List.length_set, hi, hkj, Ne.symm hkj,
        hget_eq_getElem l k hi]
    · simp [List.getD_eq_getElem?_getD, List.getElem?_set, hkj, hki, Ne.symm hkj, Ne.symm hki]

theorem set_hget_self (l : List Message) (i : Nat) : l.set i (hget l i) = l := by
  apply List.ext_getElem?
  intro n
  rw [List.getElem?_set]
  by_cases hin : i = n
  · subst hin
    by_cases hl : i < l.length
    · simp [hl, hget_eq_getElem l i hl, List.getElem?_eq_getElem hl]
    · simp [hl, List.getElem?_eq_none (Nat.le_of_not_lt hl)]
  · simp [hin]

theorem getset_cons_perm : ∀ (xs : List Message) (m : Nat) (x : Message), m < xs.length →
    (hget xs m :: xs.set m x).Perm (x :: xs) := by
  intro xs
  induction xs with
  | nil => intro m x h; simp at h
  | cons y ys ih =>
    intro m x h
    cases m with
    | zero => exact List.Perm.swap x y ys
    | succ m =>
      have h2 : m < ys.length := by simpa using h
      show (hget ys m :: y :: ys.set m x).Perm (x :: y :: ys)
      exact ((List.Perm.swap y (hget ys m) (ys.set m x)).trans
        ((ih m x h2).cons y)).trans (List.Perm.swap x y ys)

theorem swapL_perm_lt : ∀ (l : List Message) (i j : Nat), i < j → j < l.length →
    (swapL l i j).Perm l := by
  intro l
  induction l with
  | nil => intro i j hij hj; simp at hj
  | cons x xs ih =>
    intro i j hij hj
    cases i with
    | zero =>
      cases j with
      | zero => omega
      | succ m =>
        have hm : m < xs.length := by simpa using hj
        have hrw : swapL (x :: xs) 0 (m + 1) = hget xs m :: xs.set m x := rfl
        rw [hrw]
        exact getset_cons_perm xs m x hm
    | succ k =>
      cases j with
      | zero => omega
      | succ m =>
        have hrw : swapL (x :: xs) (k + 1) (m + 1) = x :: swapL xs k m := rfl
        rw [hrw]
        exact (ih k m (by omega) (by simpa using hj)).cons x

theorem swapL_comm (l : List Message) (i j : Nat) (h : i ≠ j) : swapL l i j = swapL l j i := by
  unfold swapL
  exact List.set_comm _ _ l h

theorem swapL_perm (l : List Message) (i j : Nat) (hi : i < l.length) (hj : j < l.length) :
    (swapL l i j).Perm l := by
  rcases Nat.lt_trichotomy i j with h | h | h
  · exact swapL_perm_lt l i j h hj
  · subst h
    unfold swapL
    rw [List.set_set, set_hget_self]
  · rw [swapL_comm l i j (by omega)]
    exact swapL_perm_lt l j i h hi

theorem drop_swapL (l : List Message) (i j e : Nat) (hi : i < e) (hj : j < e) :
    (swapL l i j).drop e = l.drop e := by
  unfold swapL
  simp [List.drop_set, hi, hj]

theorem hget_take (l : List Message) (e k : Nat) (hk : k < e) :
    hget (l.take e) k = hget l k := by
  unfold hget
  simp [List.getD_eq_getElem?_getD, List.getElem?_take, hk]

theorem take_swapL (l : List Message) (i j e : Nat) (hi : i < e) (hj : j < e) :
    (swapL l i j).take e = swapL (l.take e) i j := by
  unfold swapL
  rw [List.set_take, List.set_take, hget_take l e j hj, hget_take l e i hi]

theorem take_swapL_perm (l : List Message) (i j e : Nat) (hi : i < e) (hj : j < e)
    (he : e ≤ l.length) : ((swapL l i j).take e).Perm (l.take e) := by
  rw [take_swapL l i j e hi hj]
  apply swapL_perm
  · rw [List.length_take]; omega
  · rw [List.length_take]; omega

theorem perm_of_take_drop (l2 l1 : List Message) (e : Nat)
    (ht : (l2.take e).Perm (l1.take e)) (hd : l2.drop e = l1.drop e) : l2.Perm l1 := by
  have hperm : (l2.take e ++ l2.drop e).Perm (l1.take e ++ l1.drop e) := by
    rw [hd]; exact ht.append_right _
  rw [List.take_append_drop e l2, List.take_append_drop e l1] at hperm
  exact hperm

theorem hget_eq_of_drop_eq (l2 l1 : List Message) (e : Nat) (hd : l2.drop e = l1.drop e)
    (k : Nat) (hk : e ≤ k) : hget l2 k = hget l1 k := by
  unfold hget
  have h2 : l2[k]? = (l2.drop e)[k - e]? := by rw [List.getElem?_drop]; congr 1; omega
  have h1 : l1[k]? = (l1.drop e)[k - e]? := by rw [List.getElem?_drop]; congr 1; omega
  rw [List.getD_eq_getElem?_getD, List.getD_eq_getElem?_getD, h2, h1, hd]

theorem hget_append_left (l l2 : List Message) (i : Nat) (hi : i < l.length) :
    hget (l ++ l2) i = hget l i := by
  unfold hget
  simp [List.getD_eq_getElem?_getD, List.getElem?_append, hi]

theorem hget_concat_self (l : List Message) (m : Message) : hget (l ++ [m]) l.length = m := by
  unfold hget
  simp [List.getD_eq_getElem?_getD, List.getElem?_concat_length]

theorem hget_le_root (l : List Message) (e : Nat) (hh : IsHeapUpTo l e) :
    ∀ i, i < e → (hget l i).id ≤ (hget l 0).id := by
  intro i
  induction i using Nat.strong_induction_on with
  | _ i ih =>
    intro hie
    cases Nat.eq_zero_or_pos i with
    | inl h0 => subst h0; exact Nat.le_refl _
    | inr hpos =>
      have hp : (i - 1) / 2 < i := by omega
      exact Nat.le_trans (hh i hpos hie) (ih _ hp (by omega))

theorem heapExceptUp_step (l : List Message) (q : Nat) (hl : q + 1 < l.length)
    (hx : HeapExceptUp l (q + 1))
    (hc : (hget l (q / 2)).id < (hget l (q + 1)).id) :
    HeapExceptUp (swapL l (q + 1) (q / 2)) (q / 2) := by
  obtain ⟨ha, hb⟩ := hx
  have hplen : q / 2 < l.length := by omega
  have hs : ∀ k, hget (swapL l (q + 1) (q / 2)) k =
      if k = q / 2 then hget l (q + 1) else if k = q + 1 then hget l (q / 2) else hget l k :=
    fun k => hget_swapL l (q + 1) (q / 2) k hl hplen
  constructor
  · intro i hi hil hine
    rw [length_swapL] at hil
    rw [hs i, hs ((i - 1) / 2)]
    by_cases hip : i = q + 1
    · subst hip
      have h1 : ((q + 1) - 1) / 2 = q / 2 := by omega
      rw [if_neg hine, if_pos rfl, h1, if_pos rfl]
      exact Nat.le_of_lt hc
    · rw [if_neg hine, if_neg hip]
      by_cases hpr : (i - 1) / 2 = q / 2
      · rw [if_pos hpr]
        have h2 := ha i hi hil hip
        rw [hpr] at h2
        exact Nat.le_of_lt (Nat.lt_of_le_of_lt h2 hc)
      · rw [if_neg hpr]
        by_cases hpp : (i - 1) / 2 = q + 1
        · rw [if_pos hpp]
          have h3 := hb i hi hil hpp (by omega)
          have h1 : ((q + 1) - 1) / 2 = q / 2 := by omega
          rw [h1] at h3
          exact h3
        · rw [if_neg hpp]
          exact ha i hi hil hip
  · intro i hi hil hpar hr0
    rw [length_swapL] at hil
    rw [hs i, hs ((q / 2 - 1) / 2)]
    have hprr : (q / 2 - 1) / 2 ≠ q / 2 := by omega
    have hprp : (q / 2 - 1) / 2 ≠ q + 1 := by omega
    rw [if_neg hprr, if_neg hprp]
    have hir : i ≠ q / 2 := by omega
    rw [if_neg hir]
    have hroot := ha (q / 2) hr0 hplen (by omega)
    by_cases hip : i = q + 1
    · rw [if_pos hip]
      exact hroot
    · rw [if_neg hip]
      have h4 := ha i hi hil hip
      rw [hpar] at h4
      exact Nat.le_trans h4 hroot

theorem siftUpF_spec : ∀ (fuel : Nat) (l : List Message) (pos : Nat),
    pos ≤ fuel → pos < l.length → HeapExceptUp l pos →
    IsHeap (siftUpF fuel l pos) ∧ (siftUpF fuel l pos).Perm l ∧
      (siftUpF fuel l pos).length = l.length := by
  intro fuel
  induction fuel with
  | zero =>
    intro l pos hf hl hx
    have hp0 : pos = 0 := by omega
    subst hp0
    exact ⟨fun i hi hil => hx.1 i hi hil (by omega), List.Perm.refl l, rfl⟩
  | succ fuel ih =>
    intro l pos hf hl hx
    cases pos with
    | zero =>
      exact ⟨fun i hi hil => hx.1 i hi hil (by omega), List.Perm.refl l, rfl⟩
    | succ q =>
      have hunf : siftUpF (fuel + 1) l (q + 1) =
          if (hget l (q / 2)).id < (hget l (q + 1)).id then
            siftUpF fuel (swapL l (q + 1) (q / 2)) (q / 2)
          else l := rfl
      by_cases hc : (hget l (q / 2)).id < (hget l (q + 1)).id
      · rw [hunf, if_pos hc]
        have hstep := heapExceptUp_step l q hl hx hc
        have hrec := ih (swapL l (q + 1) (q / 2)) (q / 2) (by omega)
          (by rw [length_swapL]; omega) hstep
        exact ⟨hrec.1, hrec.2.1.trans (swapL_perm l (q + 1) (q / 2) hl (by omega)),
          by rw [hrec.2.2, length_swapL]⟩
      · rw [hunf, if_neg hc]
        refine ⟨?_, List.Perm.refl l, rfl⟩
        intro i hi hil
        by_cases hip : i = q + 1
        · subst hip
          have h1 : ((q + 1) - 1) / 2 = q / 2 := by omega
          rw [h1]
          exact Nat.le_of_not_lt hc
        · exact hx.1 i hi hil hip

theorem isHeap_heapPush (l : List Message) (m : Message) (hh : IsHeap l) :
    IsHeap (heapPush l m) ∧ (heapPush l m).Perm (l ++ [m]) ∧
      (heapPush l m).length = l.length + 1 := by
  unfold heapPush siftUp
  have hlen : (l ++ [m]).length = l.length + 1 := by simp
  have hx : HeapExceptUp (l ++ [m]) l.length := by
    constructor
    · intro i hi hil hine
      rw [hlen] at hil
      have hi2 : i < l.length := by omega
      have hp2 : (i - 1) / 2 < l.length := by omega
      rw [hget_append_left l [m] i hi2, hget_append_left l [m] _ hp2]
      exact hh i hi hi2
    · intro i hi hil hpar
      rw [hlen] at hil
      exact absurd hpar (by omega)
  have hres := siftUpF_spec l.length (l ++ [m]) l.length (Nat.le_refl _) (by omega) hx
  exact ⟨hres.1, hres.2.1, by rw [hres.2.2, hlen]⟩

theorem isHeap_nil : IsHeap [] := by
  intro i hi hil
  simp at hil

theorem isHeapUpTo_of_exceptDown (l : List Message) (e pos : Nat)
    (hd : HeapExceptDown l e pos)
    (hch : ∀ i, 0 < i → i < e → (i - 1) / 2 = pos → (hget l i).id ≤ (hget l pos).id) :
    IsHeapUpTo l e := by
  intro i hi hie
  by_cases hp : (i - 1) / 2 = pos
  · rw [hp]
    exact hch i hi hie hp
  · exact hd.1 i hi hie hp

theorem heapExceptDown_swap (l : List Message) (e pos c : Nat)
    (hrange : 2 * pos + 1 ≤ c ∧ c ≤ 2 * pos + 2)
    (hce : c < e) (he : e ≤ l.length) (hpe : pos < e)
    (hgt : (hget l pos).id < (hget l c).id)
    (hmax : (hget l (4 * pos + 3 - c)).id ≤ (hget l c).id)
    (hd : HeapExceptDown l e pos) :
    HeapExceptDown (swapL l pos c) e c := by
  have parc : (c - 1) / 2 = pos := by omega
  have hcpos : pos < c := by omega
  have hs : ∀ k, hget (swapL l pos c) k =
      if k = c then hget l pos else if k = pos then hget l c else hget l k :=
    fun k => hget_swapL l pos c k (by omega) (by omega)
  constructor
  · intro i hi hie hpine
    rw [hs i, hs ((i - 1) / 2)]
    by_cases hic : i = c
    · rw [hic, if_pos rfl, parc, if_neg (show pos ≠ c by omega), if_pos rfl]
      exact Nat.le_of_lt hgt
    · rw [if_neg hic]
      by_cases hipos : i = pos
      · rw [hipos, if_pos rfl]
        have hpp1 : (pos - 1) / 2 ≠ c := by omega
        have hpp2 : (pos - 1) / 2 ≠ pos := by omega
        rw [if_neg hpp1, if_neg hpp2]
        exact hd.2 c (by omega) hce parc (by omega)
      · rw [if_neg hipos]
        by_cases hpi : (i - 1) / 2 = pos
        · have hio : i = 4 * pos + 3 - c := by omega
          rw [hpi, if_neg (show pos ≠ c by omega), if_pos rfl, hio]
          exact hmax
        · rw [if_neg hpine, if_neg hpi]
          exact hd.1 i hi hie hpi
  · intro i hi hie hpc h0c
    rw [hs i, hs ((c - 1) / 2), parc]
    rw [if_neg (show pos ≠ c by omega), if_pos rfl]
    have hinec : i ≠ c := by omega
    have hinep : i ≠ pos := by omega
    rw [if_neg hinec, if_neg hinep]
    have hi2 := hd.1 i hi hie (by omega)
    rw [hpc] at hi2
    exact hi2

theorem siftDownF_spec : ∀ (fuel : Nat) (l : List Message) (pos e : Nat),
    e - pos ≤ fuel → pos < e → e ≤ l.length → HeapExceptDown l e pos →
    IsHeapUpTo (siftDownF fuel l pos e) e ∧
      (siftDownF fuel l pos e).length = l.length ∧
      ((siftDownF fuel l pos e).take e).Perm (l.take e) ∧
      (siftDownF fuel l pos e).drop e = l.drop e := by
  intro fuel
  induction fuel with
  | zero =>
    intro l pos e hf hpe he hd
    exact absurd hpe (by omega)
  | succ fuel ih =>
    intro l pos e hf hpe he hd
    have hunf : siftDownF (fuel + 1) l pos e =
        if 2 * pos + 1 + 2 ≤ e then
          if (hget l (2 * pos + 1)).id ≤ (hget l (2 * pos + 2)).id then
            if (hget l (2 * pos + 2)).id ≤ (hget l pos).id then l
            else siftDownF fuel (swapL l pos (2 * pos + 2)) (2 * pos + 2) e
          else
            if (hget l (2 * pos + 1)).id ≤ (hget l pos).id then l
            else siftDownF fuel (swapL l pos (2 * pos + 1)) (2 * pos + 1) e
        else if 2 * pos + 1 + 1 = e ∧ (hget l pos).id < (hget l (2 * pos + 1)).id then
          swapL l pos (2 * pos + 1)
        else l := rfl
    by_cases h1 : 2 * pos + 1 + 2 ≤ e
    · by_cases h2 : (hget l (2 * pos + 1)).id ≤ (hget l (2 * pos + 2)).id
      · by_cases h3 : (hget l (2 * pos + 2)).id ≤ (hget l pos).id
        · rw [hunf, if_pos h1, if_pos h2, if_pos h3]
          refine ⟨?_, rfl, List.Perm.refl _, rfl⟩
          apply isHeapUpTo_of_exceptDown l e pos hd
          intro i hi hie hp
          have hi12 : i = 2 * pos + 1 ∨ i = 2 * pos + 2 := by omega
          rcases hi12 with h | h
          · subst h; exact Nat.le_trans h2 h3
          · subst h; exact h3
        · rw [hunf, if_pos h1, if_pos h2, if_neg h3]
          have hce : 2 * pos + 2 < e := by omega
          have hoth : 4 * pos + 3 - (2 * pos + 2) = 2 * pos + 1 := by omega
          have hmax : (hget l (4 * pos + 3 - (2 * pos + 2))).id ≤ (hget l (2 * pos + 2)).id := by
            rw [hoth]; exact h2
          have hd2 := heapExceptDown_swap l e pos (2 * pos + 2) (by omega) hce he hpe
            (Nat.not_le.mp h3) hmax hd
          have hrec := ih (swapL l pos (2 * pos + 2)) (2 * pos + 2) e (by omega) hce
            (by rw [length_swapL]; exact he) hd2
          refine ⟨hrec.1, ?_, ?_, ?_⟩
          · rw [hrec.2.1, length_swapL]
          · exact hrec.2.2.1.trans (take_swapL_perm l pos (2 * pos + 2) e (by omega) hce he)
          · rw [hrec.2.2.2, drop_swapL l pos (2 * pos + 2) e (by omega) hce]
      · by_cases h3 : (hget l (2 * pos + 1)).id ≤ (hget l pos).id
        · rw [hunf, if_pos h1, if_neg h2, if_pos h3]
          refine ⟨?_, rfl, List.Perm.refl _, rfl⟩
          apply isHeapUpTo_of_exceptDown l e pos hd
          intro i hi hie hp
          have hi12 : i = 2 * pos + 1 ∨ i = 2 * pos + 2 := by omega
          rcases hi12 with h | h
          · subst h; exact h3
          · subst h; exact Nat.le_trans (Nat.le_of_lt (Nat.not_le.mp h2)) h3
        · rw [hunf, if_pos h1, if_neg h2, if_neg h3]
          have hce : 2 * pos + 1 < e := by omega
          have hoth : 4 * pos + 3 - (2 * pos + 1) = 2 * pos + 2 := by omega
          have hmax : (hget l (4 * pos + 3 - (2 * pos + 1))).id ≤ (hget l (2 * pos + 1)).id := by
            rw [hoth]; exact Nat.le_of_lt (Nat.not_le.mp h2)
          have hd2 := heapExceptDown_swap l e pos (2 * pos + 1) (by omega) hce he hpe
            (Nat.not_le.mp h3) hmax hd
          have hrec := ih (swapL l pos (2 * pos + 1)) (2 * pos + 1) e (by omega) hce
            (by rw [length_swapL]; exact he) hd2
          refine ⟨hrec.1, ?_, ?_, ?_⟩
          · rw [hrec.2.1, length_swapL]
          · exact hrec.2.2.1.trans (take_swapL_perm l pos (2 * pos + 1) e (by omega) hce he)
          · rw [hrec.2.2.2, drop_swapL l pos (2 * pos + 1) e (by omega) hce]
    · by_cases h4 : 2 * pos + 1 + 1 = e ∧ (hget l pos).id < (hget l (2 * pos + 1)).id
      · rw [hunf, if_neg h1, if_pos h4]
        obtain ⟨h4a, h4b⟩ := h4
        have hce : 2 * pos + 1 < e := by omega
        have hs : ∀ k, hget (swapL l pos (2 * pos + 1)) k =
            if k = 2 * pos + 1 then hget l pos
            else if k = pos then hget l (2 * pos + 1) else hget l k :=
          fun k => hget_swapL l pos (2 * pos + 1) k (by omega) (by omega)
        refine ⟨?_, length_swapL _ _ _,
          take_swapL_perm l pos (2 * pos + 1) e (by omega) hce he,
          drop_swapL l pos (2 * pos + 1) e (by omega) hce⟩
        intro i hi hie
        rw [hs i, hs ((i - 1) / 2)]
        by_cases hi1 : i = 2 * pos + 1
        · subst hi1
          have hp : (2 * pos + 1 - 1) / 2 = pos := by omega
          rw [if_pos rfl, hp, if_neg (show pos ≠ 2 * pos + 1 by omega), if_pos rfl]
          exact Nat.le_of_lt h4b
        · rw [if_neg hi1]
          by_cases hip : i = pos
          · rw [hip, if_pos rfl]
            have q1 : (pos - 1) / 2 ≠ 2 * pos + 1 := by omega
            have q2 : (pos - 1) / 2 ≠ pos := by omega
            rw [if_neg q1, if_neg q2]
            exact hd.2 (2 * pos + 1) (by omega) hce (by omega) (by omega)
          · by_cases hpi : (i - 1) / 2 = pos
            · exfalso; omega
            · rw [if_neg hip, if_neg (show (i - 1) / 2 ≠ 2 * pos + 1 by omega), if_neg hpi]
              exact hd.1 i hi hie hpi
      · rw [hunf, if_neg h1, if_neg h4]
        refine ⟨?_, rfl, List.Perm.refl _, rfl⟩
        apply isHeapUpTo_of_exceptDown l e pos hd
        intro i hi hie hp
        have hi1 : i = 2 * pos + 1 := by omega
        subst hi1
        have he2 : 2 * pos + 1 + 1 = e := by omega
        have hnlt : ¬ (hget l pos).id < (hget l (2 * pos + 1)).id := fun hlt => h4 ⟨he2, hlt⟩
        exact Nat.le_of_not_lt hnlt

theorem exists_idx_of_take_perm (l2 l1 : List Message) (e : Nat)
    (hperm : (l2.take e).Perm (l1.take e)) (i : Nat) (hi : i < e) (hil : i < l2.length) :
    ∃ k, k < e ∧ k < l1.length ∧ hget l2 i = hget l1 k := by
  have hlen : i < (l2.take e).length := by rw [List.length_take]; omega
  have hmem : hget l2 i ∈ l2.take e := by
    have h1 : (l2.take e)[i] ∈ l2.take e := List.getElem_mem hlen
    have h2 : (l2.take e)[i] = l2[i] := List.getElem_take l2
    rw [hget_eq_getElem l2 i hil, ← h2]
    exact h1
  have hmem1 : hget l2 i ∈ l1.take e := hperm.mem_iff.mp hmem
  obtain ⟨k, hk, hke⟩ := List.getElem_of_mem hmem1
  have hk1 : k < e := by rw [List.length_take] at hk; omega
  have hk2 : k < l1.length := by rw [List.length_take] at hk; omega
  refine ⟨k, hk1, hk2, ?_⟩
  rw [hget_eq_getElem l1 k hk2, ← hke]
  exact List.getElem_take l1

theorem heapExtractF_spec : ∀ (fuel : Nat) (l : List Message) (e : Nat),
    e ≤ fuel → e ≤ l.length → IsHeapUpTo l e → SortedTail l e → PrefixLeTail l e →
    SortedIdx (heapExtractF fuel l e) ∧ (heapExtractF fuel l e).Perm l := by
  intro fuel
  induction fuel with
  | zero =>
    intro l e hf he hh hst hpt
    have he0 : e = 0 := by omega
    subst he0
    refine ⟨?_, List.Perm.refl l⟩
    intro i j hij hj
    exact hst i j (by omega) hij hj
  | succ fuel ih =>
    intro l e hf he hh hst hpt
    by_cases hle1 : e ≤ 1
    · have hunf : heapExtractF (fuel + 1) l e = l := by
        show (if e ≤ 1 then l else _) = l
        rw [if_pos hle1]
      rw [hunf]
      refine ⟨?_, List.Perm.refl l⟩
      intro i j hij hj
      by_cases hie : e ≤ i
      · exact hst i j hie hij hj
      · by_cases hje : e ≤ j
        · exact hpt i j (by omega) hje hj
        · have hij2 : i = j := by omega
          rw [hij2]
    · have hunf : heapExtractF (fuel + 1) l e =
          heapExtractF fuel (siftDown (swapL l 0 (e - 1)) 0 (e - 1)) (e - 1) := by
        show (if e ≤ 1 then l else _) = _
        rw [if_neg hle1]
      rw [hunf]
      have h0e : 0 < e - 1 := by omega
      have hlen1 : (swapL l 0 (e - 1)).length = l.length := length_swapL _ _ _
      have hd1 : HeapExceptDown (swapL l 0 (e - 1)) (e - 1) 0 := by
        constructor
        · intro i hi hie hp
          have hs := fun k => hget_swapL l 0 (e - 1) k (by omega) (by omega)
          rw [hs i, hs ((i - 1) / 2)]
          rw [if_neg (show i ≠ e - 1 by omega), if_neg (show i ≠ 0 by omega),
            if_neg (show (i - 1) / 2 ≠ e - 1 by omega), if_neg hp]
          exact hh i hi (by omega)
        · intro i hi hie hp hp0
          exact absurd hp0 (by omega)
      have hsd : IsHeapUpTo (siftDown (swapL l 0 (e - 1)) 0 (e - 1)) (e - 1) ∧
          (siftDown (swapL l 0 (e - 1)) 0 (e - 1)).length = (swapL l 0 (e - 1)).length ∧
          ((siftDown (swapL l 0 (e - 1)) 0 (e - 1)).take (e - 1)).Perm
            ((swapL l 0 (e - 1)).take (e - 1)) ∧
          (siftDown (swapL l 0 (e - 1)) 0 (e - 1)).drop (e - 1) =
            (swapL l 0 (e - 1)).drop (e - 1) :=
        siftDownF_spec (e - 1 - 0) (swapL l 0 (e - 1)) 0 (e - 1) (Nat.le_refl _) h0e
          (by rw [hlen1]; omega) hd1
      obtain ⟨hheap2, hlen2a, htk, hdr⟩ := hsd
      have hlen2 : (siftDown (swapL l 0 (e - 1)) 0 (e - 1)).length = l.length := by
        rw [hlen2a, hlen1]
      have hswap := fun k => hget_swapL l 0 (e - 1) k (by omega) (by omega)
      have hstail : SortedTail (siftDown (swapL l 0 (e - 1)) 0 (e - 1)) (e - 1) := by
        intro i j hie1 hij hj
        rw [hlen2] at hj
        have gi : hget (siftDown (swapL l 0 (e - 1)) 0 (e - 1)) i = hget (swapL l 0 (e - 1)) i :=
          hget_eq_of_drop_eq _ _ (e - 1) hdr i hie1
        have gj : hget (siftDown (swapL l 0 (e - 1)) 0 (e - 1)) j = hget (swapL l 0 (e - 1)) j :=
          hget_eq_of_drop_eq _ _ (e - 1) hdr j (by omega)
        rw [gi, gj]
        by_cases hi1 : i = e - 1
        · rw [hi1, hswap (e - 1), if_pos rfl]
          by_cases hj1 : j = e - 1
          · rw [hj1, hswap (e - 1), if_pos rfl]
          · rw [hswap j, if_neg hj1, if_neg (show j ≠ 0 by omega)]
            exact hpt 0 j (by omega) (by omega) hj
        · rw [hswap i, if_neg hi1, if_neg (show i ≠ 0 by omega)]
          rw [hswap j, if_neg (show j ≠ e - 1 by omega), if_neg (show j ≠ 0 by omega)]
          exact hst i j (by omega) hij hj
      have hptail : PrefixLeTail (siftDown (swapL l 0 (e - 1)) 0 (e - 1)) (e - 1) := by
        intro i j hie hje hj
        rw [hlen2] at hj
        obtain ⟨k, hk, hkl, hgik⟩ := exists_idx_of_take_perm _ _ (e - 1) htk i hie (by omega)
        have hk2 : ∃ k2, k2 < e ∧
            hget (siftDown (swapL l 0 (e - 1)) 0 (e - 1)) i = hget l k2 := by
          by_cases hk0 : k = 0
          · refine ⟨e - 1, by omega, ?_⟩
            rw [hgik, hswap k, if_neg (show k ≠ e - 1 by omega), if_pos hk0]
          · refine ⟨k, by omega, ?_⟩
            rw [hgik, hswap k, if_neg (show k ≠ e - 1 by omega), if_neg hk0]
        obtain ⟨k2, hk2e, hg2⟩ := hk2
        rw [hg2]
        have gj : hget (siftDown (swapL l 0 (e - 1)) 0 (e - 1)) j = hget (swapL l 0 (e - 1)) j :=
          hget_eq_of_drop_eq _ _ (e - 1) hdr j hje
        rw [gj]
        by_cases hj1 : j = e - 1
        · rw [hj1, hswap (e - 1), if_pos rfl]
          exact hget_le_root l e hh k2 hk2e
        · rw [hswap j, if_neg hj1, if_neg (show j ≠ 0 by omega)]
          exact hpt k2 j hk2e (by omega) hj
      have hrec := ih (siftDown (swapL l 0 (e - 1)) 0 (e - 1)) (e - 1) (by omega)
        (by rw [hlen2]; omega) hheap2 hstail hptail
      refine ⟨hrec.1, ?_⟩
      have hp21 : (siftDown (swapL l 0 (e - 1)) 0 (e - 1)).Perm (swapL l 0 (e - 1)) :=
        perm_of_take_drop _ _ (e - 1) htk hdr
      exact hrec.2.trans (hp21.trans (swapL_perm l 0 (e - 1) (by omega) (by omega)))

theorem intoSortedVec_spec (l : List Message) (hh : IsHeap l) :
    SortedIdx (intoSortedVec l) ∧ (intoSortedVec l).Perm l := by
  unfold intoSortedVec
  apply heapExtractF_spec l.length l l.length (Nat.le_refl _) (Nat.le_refl _) hh
  · intro i j hie hij hj
    exact absurd hj (by omega)
  · intro i j hie hje hj
    exact absurd hj (by omega)

theorem sortedIdx_sorted (l : List Message) (h : SortedIdx l) :
    List.Sorted (fun m1 m2 : Message => m1.id ≤ m2.id) l := by
  show List.Pairwise _ l
  apply List.pairwise_iff_getElem.mpr
  intro i j hi hj hij
  have h2 := h i j (by omega) hj
  rw [hget_eq_getElem l i (by omega), hget_eq_getElem l j hj] at h2
  exact h2

theorem sorted_lt_of_nodup (ms : List Message)
    (hs : List.Sorted (fun m1 m2 : Message => m1.id ≤ m2.id) ms)
    (hn : (ms.map Message.id).Nodup) :
    List.Sorted (fun m1 m2 : Message => m1.id < m2.id) ms := by
  have hne : List.Pairwise (fun m1 m2 : Message => m1.id ≠ m2.id) ms :=
    List.pairwise_map.mp hn
  have hand := List.Pairwise.and hs hne
  show List.Pairwise _ ms
  exact hand.imp (fun hab => Nat.lt_of_le_of_ne hab.1 hab.2)

theorem plookup_pupdate_self (m : List (Nat × Pipeline)) (k : Nat) (p : Pipeline) :
    plookup (pupdate m k p) k = some p := by
  induction m with
  | nil => simp [pupdate, plookup]
  | cons kv rest ih =>
    obtain ⟨k1, q⟩ := kv
    by_cases h : k1 = k
    · simp [pupdate, plookup, h]
    · simp [pupdate, plookup, h, ih]

theorem plookup_pupdate_ne (m : List (Nat × Pipeline)) (k k2 : Nat) (p : Pipeline)
    (h : k2 ≠ k) : plookup (pupdate m k p) k2 = plookup m k2 := by
  induction m with
  | nil => simp [pupdate, plookup, Ne.symm h]
  | cons kv rest ih =>
    obtain ⟨k1, q⟩ := kv
    by_cases h1 : k1 = k
    · subst h1
      simp [pupdate, plookup, Ne.symm h]
    · by_cases h2 : k1 = k2
      · simp [pupdate, plookup, h1, h2, h, ih]
      · simp [pupdate, plookup, h1, h2, ih]

theorem pupdate_same (m : List (Nat × Pipeline)) (k : Nat) (p : Pipeline)
    (h : plookup m k = some p) : pupdate m k p = m := by
  induction m with
  | nil => simp [plookup] at h
  | cons kv rest ih =>
    obtain ⟨k1, q⟩ := kv
    by_cases h1 : k1 = k
    · simp [plookup, h1] at h
      simp [pupdate, h1, h]
    · simp [plookup, h1] at h
      simp [pupdate, h1, ih h]

theorem keys_pupdate_mem (m : List (Nat × Pipeline)) (k : Nat) (p q : Pipeline)
    (h : plookup m k = some q) : (pupdate m k p).map Prod.fst = m.map Prod.fst := by
  induction m with
  | nil => simp [plookup] at h
  | cons kv rest ih =>
    obtain ⟨k1, q1⟩ := kv
    by_cases h1 : k1 = k
    · simp [pupdate, h1]
    · simp [plookup, h1] at h
      simp [pupdate, h1, ih h]

theorem keys_pupdate_none (m : List (Nat × Pipeline)) (k : Nat) (p : Pipeline)
    (h : plookup m k = none) : (pupdate m k p).map Prod.fst = m.map Prod.fst ++ [k] := by
  induction m with
  | nil => simp [pupdate]
  | cons kv rest ih =>
    obtain ⟨k1, q1⟩ := kv
    by_cases h1 : k1 = k
    · simp [plookup, h1] at h
    · simp [plookup, h1] at h
      simp [pupdate, h1, ih h]

theorem plookup_none_iff (m : List (Nat × Pipeline)) (k : Nat) :
    plookup m k = none ↔ k ∉ m.map Prod.fst := by
  induction m with
  | nil => simp [plookup]
  | cons kv rest ih =>
    obtain ⟨k1, q⟩ := kv
    by_cases h1 : k1 = k
    · simp [plookup, h1]
    · simp [plookup, h1, ih, Ne.symm h1]

theorem plookup_isSome_of_mem (m : List (Nat × Pipeline)) (k : Nat)
    (h : k ∈ m.map Prod.fst) : ∃ p, plookup m k = some p := by
  cases hp : plookup m k with
  | some p => exact ⟨p, rfl⟩
  | none => exact absurd ((plookup_none_iff m k).mp hp) (by simp [h])

theorem applyRecord_closed (cfg : PipelinesConfig) (p : Pipeline) (msg : ParsedMessage)
    (h : p.closed = true) : Pipeline.applyRecord cfg p msg = p := by
  simp [Pipeline.applyRecord, h]

theorem applyRecord_discard (cfg : PipelinesConfig) (p : Pipeline) (msg : ParsedMessage)
    (h1 : p.closed = false) (h2 : discardGate p msg cfg = true) :
    Pipeline.applyRecord cfg p msg = p := by
  simp [Pipeline.applyRecord, h1, h2]

theorem applyRecord_eq (cfg : PipelinesConfig) (p : Pipeline) (msg : ParsedMessage)
    (h1 : p.closed = false) (h2 : discardGate p msg cfg = false) :
    Pipeline.applyRecord cfg p msg =
      { id := p.id,
        next_id := msg.next_id,
        closed := msg.next_id.isNone,
        message := match Message.tryFrom msg.id msg.encoding msg.message with
          | some m => heapPush p.message m
          | none => p.message } := by
  cases htf : Message.tryFrom msg.id msg.encoding msg.message with
  | none =>
    cases hni : msg.next_id with
    | none => simp [Pipeline.applyRecord, h1, h2, htf, hni]
    | some v => simp [Pipeline.applyRecord, h1, h2, htf, hni]
  | some mm =>
    cases hni : msg.next_id with
    | none => simp [Pipeline.applyRecord, h1, h2, htf, hni]
    | some v => simp [Pipeline.applyRecord, h1, h2, htf, hni]

theorem goodPipeline_applyRecord (cfg : PipelinesConfig) (k : Nat) (p : Pipeline)
    (msg : ParsedMessage) (h : GoodPipeline k p) :
    GoodPipeline k (Pipeline.applyRecord cfg p msg) := by
  obtain ⟨hid, hcl, hheap⟩ := h
  by_cases h1 : p.closed = true
  · rw [applyRecord_closed cfg p msg h1]
    exact ⟨hid, hcl, hheap⟩
  · have h1f : p.closed = false := by revert h1; cases p.closed <;> simp
    by_cases h2 : discardGate p msg cfg = true
    · rw [applyRecord_discard cfg p msg h1f h2]
      exact ⟨hid, hcl, hheap⟩
    · have h2f : discardGate p msg cfg = false := by revert h2; cases discardGate p msg cfg <;> simp
      rw [applyRecord_eq cfg p msg h1f h2f]
      refine ⟨hid, ?_, ?_⟩
      · intro hc
        simp only at hc
        exact Option.isNone_iff_eq_none.mp hc
      · simp only
        cases htf : Message.tryFrom msg.id msg.encoding msg.message with
        | none => exact hheap
        | some mm => exact (isHeap_heapPush p.message mm hheap).1

theorem goodState_new (cfg : PipelinesConfig) : GoodState (Pipelines.new cfg) := by
  constructor
  · simp [Pipelines.new]
  · intro k p h
    simp [Pipelines.new, plookup] at h

theorem goodState_insert (ps : Pipelines) (msg : ParsedMessage) (h : GoodState ps) :
    GoodState (ps.insert_message msg) := by
  obtain ⟨hnd, hent⟩ := h
  unfold Pipelines.insert_message
  cases hlk : plookup ps.inner msg.pipeline_id with
  | some p =>
    constructor
    · simp only
      rw [keys_pupdate_mem ps.inner msg.pipeline_id _ p hlk]
      exact hnd
    · intro k q hq
      simp only at hq
      by_cases hk : k = msg.pipeline_id
      · rw [hk] at hq ⊢
        rw [plookup_pupdate_self] at hq
        rw [← Option.some.inj hq]
        simp only [Option.getD_some]
        exact goodPipeline_applyRecord ps.config msg.pipeline_id p msg (hent msg.pipeline_id p hlk)
      · rw [plookup_pupdate_ne _ _ _ _ hk] at hq
        exact hent k q hq
  | none =>
    constructor
    · simp only
      rw [keys_pupdate_none _ _ _ hlk]
      rw [List.nodup_append]
      refine ⟨hnd, List.nodup_singleton _, ?_⟩
      intro a ha hb
      simp at hb
      subst hb
      exact absurd ha ((plookup_none_iff _ _).mp hlk)
    · intro k q hq
      simp only at hq
      by_cases hk : k = msg.pipeline_id
      · rw [hk] at hq ⊢
        rw [plookup_pupdate_self] at hq
        rw [← Option.some.inj hq]
        simp only [Option.getD_none]
        apply goodPipeline_applyRecord ps.config msg.pipeline_id (Pipeline.new msg.pipeline_id) msg
        exact ⟨rfl, by simp [Pipeline.new], isHeap_nil⟩
      · rw [plookup_pupdate_ne _ _ _ _ hk] at hq
        exact hent k q hq

theorem goodState_foldl (msgs : List ParsedMessage) : ∀ ps : Pipelines, GoodState ps →
    GoodState (msgs.foldl Pipelines.insert_message ps) := by
  induction msgs with
  | nil => intro ps h; exact h
  | cons m rest ih => intro ps h; exact ih _ (goodState_insert ps m h)

theorem goodState_applyAll (cfg : PipelinesConfig) (msgs : List ParsedMessage) :
    GoodState (Pipelines.applyAll cfg msgs) :=
  goodState_foldl msgs _ (goodState_new cfg)

theorem sortedKeys_sorted (ps : Pipelines) :
    List.Sorted (fun a b : Nat => a ≤ b) ps.sortedKeys :=
  List.sorted_insertionSort _ _

theorem sortedKeys_perm (ps : Pipelines) : ps.sortedKeys.Perm (ps.inner.map Prod.fst) :=
  List.perm_insertionSort _ _

theorem sortedKeys_sorted_lt (ps : Pipelines) (hnd : (ps.inner.map Prod.fst).Nodup) :
    List.Sorted (fun a b : Nat => a < b) ps.sortedKeys := by
  have hnd2 : ps.sortedKeys.Nodup := (sortedKeys_perm ps).symm.nodup hnd
  exact List.Sorted.lt_of_le (sortedKeys_sorted ps) hnd2

theorem displayBlocks_keys (ps : Pipelines)
    (h : ∀ k ∈ ps.sortedKeys, ∃ p, plookup ps.inner k = some p ∧ p.id = k) :
    ps.displayBlocks.map Prod.fst = ps.sortedKeys := by
  unfold Pipelines.displayBlocks
  revert h
  generalize ps.sortedKeys = ks
  intro h
  induction ks with
  | nil => simp
  | cons k ks ih =>
    obtain ⟨p, hp, hid⟩ := h k (by simp)
    simp [List.filterMap_cons, hp, hid, ih (fun k2 hk2 => h k2 (by simp [hk2]))]

theorem mem_displayBlocks (ps : Pipelines) (b : Nat × List Message)
    (hb : b ∈ ps.displayBlocks) :
    ∃ k p, plookup ps.inner k = some p ∧ b = (p.id, intoSortedVec p.message) := by
  unfold Pipelines.displayBlocks at hb
  rw [List.mem_filterMap] at hb
  obtain ⟨k, hk, hf⟩ := hb
  cases hp : plookup ps.inner k with
  | none => rw [hp] at hf; simp at hf
  | some p =>
    rw [hp] at hf
    simp at hf
    exact ⟨k, p, hp, hf.symm⟩

theorem parseI16_of_tokenInt (s : String) (n : Int) (hn : tokenInt s = some n) :
    parseI16 s = if -32768 ≤ n ∧ n ≤ 32767 then some n else none := by
  simp [parseI16, hn]

theorem parseTokens_eq (s0 s1 s2 s3 s4 : String) (rest : List String)
    (p0 i1 eb : Nat) (enc : Encoding) (n : Int)
    (h0 : parseU8 s0 = some p0) (h1 : parseU8 s1 = some i1) (h2 : parseU8 s2 = some eb)
    (henc : Encoding.tryFrom eb = some enc) (hn : parseI16 s4 = some n) :
    parseTokens (s0 :: s1 :: s2 :: s3 :: s4 :: rest) =
      if n = -1 then
        Except.ok ⟨p0, i1, enc, s3, none⟩
      else if 0 ≤ n ∧ n ≤ 255 then
        Except.ok ⟨p0, i1, enc, s3, some n.toNat⟩
      else Except.error ParseError.invalidNextId := by
  by_cases hn1 : n = -1
  · simp [parseTokens, req, h0, h1, h2, henc, hn, hn1, Bind.bind, Except.bind]
  · by_cases hn2 : 0 ≤ n ∧ n ≤ 255
    · simp [parseTokens, req, h0, h1, h2, henc, hn, hn1, hn2, Bind.bind, Except.bind]
    · simp [parseTokens, req, h0, h1, h2, henc, hn, hn1, hn2, Bind.bind, Except.bind]

theorem parseTokens_unknownEnc (s0 s1 s2 : String) (rest : List String)
    (p0 i1 b : Nat)
    (h0 : parseU8 s0 = some p0) (h1 : parseU8 s1 = some i1) (h2 : parseU8 s2 = some b)
    (hb : Encoding.tryFrom b = none) :
    parseTokens (s0 :: s1 :: s2 :: rest) = Except.error ParseError.unknownEncoding := by
  simp [parseTokens, req, h0, h1, h2, hb, Bind.bind, Except.bind]

theorem parseTokens_encoding_ok (s0 s1 s2 s3 s4 : String) (rest : List String)
    (p0 i1 eb : Nat) (enc : Encoding)
    (h0 : parseU8 s0 = some p0) (h1 : parseU8 s1 = some i1) (h2 : parseU8 s2 = some eb)
    (henc : Encoding.tryFrom eb = some enc) (pm : ParsedMessage)
    (hok : parseTokens (s0 :: s1 :: s2 :: s3 :: s4 :: rest) = Except.ok pm) :
    pm.encoding = enc := by
  cases hn : parseI16 s4 with
  | none => simp [parseTokens, req, h0, h1, h2, henc, hn, Bind.bind, Except.bind] at hok
  | some n =>
    rw [parseTokens_eq s0 s1 s2 s3 s4 rest p0 i1 eb enc n h0 h1 h2 henc hn] at hok
    by_cases hn1 : n = -1
    · rw [if_pos hn1] at hok
      rw [← Except.ok.inj hok]
    · rw [if_neg hn1] at hok
      by_cases hn2 : 0 ≤ n ∧ n ≤ 255
      · rw [if_pos hn2] at hok
        rw [← Except.ok.inj hok]
      · rw [if_neg hn2] at hok
        exact absurd hok (by simp)

/-- C1: for every pipeline in the Open state (closed check passed) and every
chain-accepted record (discard-policy check passed), applying the record sets the
pipeline's `next_id` to the record's declared next id — closing the pipeline
exactly when that is `none` — even when decoding the record's payload fails, and
in the decode-failure case the message collection is unchanged. -/
theorem C1_chain_advance (cfg : PipelinesConfig) (p : Pipeline) (msg : ParsedMessage)
    (hopen : p.closed = false) (haccept : discardGate p msg cfg = false) :
    (Pipeline.applyRecord cfg p msg).next_id = msg.next_id ∧
    (Pipeline.applyRecord cfg p msg).closed = msg.next_id.isNone ∧
    (Message.tryFrom msg.id msg.encoding msg.message = none →
      (Pipeline.applyRecord cfg p msg).message = p.message) := by
  rw [applyRecord_eq cfg p msg hopen haccept]
  refine ⟨rfl, rfl, fun htf => ?_⟩
  simp only [htf]

/-- C1 witness: a record with an undecodable hex payload (odd length) applied to a
fresh open pipeline still advances `next_id` to `some 3`, stays open, and stores
nothing. -/
theorem C1_chain_advance_witness :
    (Pipeline.applyRecord { discard_invalid_next_id := false } (Pipeline.new 1)
      { pipeline_id := 1, id := 0, encoding := Encoding.hex, message := "4F4",
        next_id := some 3 }).next_id = some 3 ∧
    (Pipeline.applyRecord { discard_invalid_next_id := false } (Pipeline.new 1)
      { pipeline_id := 1, id := 0, encoding := Encoding.hex, message := "4F4",
        next_id := some 3 }).closed = (some 3 : Option Nat).isNone ∧
    (Message.tryFrom 0 Encoding.hex "4F4" = none →
      (Pipeline.applyRecord { discard_invalid_next_id := false } (Pipeline.new 1)
        { pipeline_id := 1, id := 0, encoding := Encoding.hex, message := "4F4",
          next_id := some 3 }).message = (Pipeline.new 1).message) :=
  C1_chain_advance { discard_invalid_next_id := false } (Pipeline.new 1)
    { pipeline_id := 1, id := 0, encoding := Encoding.hex, message := "4F4",
      next_id := some 3 } rfl rfl

/-- C2: a chain-accepted record with declared next id `none` closes its pipeline,
and a record addressed to a closed pipeline is ignored entirely: the registry is
left exactly unchanged, whatever the record's id, encoding, payload or the
discard setting. -/
theorem C2_closing (cfg : PipelinesConfig) (q : Pipeline) (r : ParsedMessage)
    (ps : Pipelines) (msg : ParsedMessage) (p : Pipeline) :
    (q.closed = false → discardGate q r cfg = false → r.next_id = none →
      (Pipeline.applyRecord cfg q r).closed = true) ∧
    (plookup ps.inner msg.pipeline_id = some p → p.closed = true →
      ps.insert_message msg = ps) := by
  constructor
  · intro h1 h2 h3
    rw [applyRecord_eq cfg q r h1 h2, h3]
    rfl
  · intro hlk hc
    unfold Pipelines.insert_message
    rw [hlk]
    simp only [Option.getD_some]
    rw [applyRecord_closed ps.config p msg hc, pupdate_same ps.inner msg.pipeline_id p hlk]

/-- C2 witness: the record `1 0 _ x -1` closes pipeline 1, and a later record for
pipeline 1 leaves the resulting registry exactly unchanged. -/
theorem C2_closing_witness :
    (Pipeline.applyRecord { discard_invalid_next_id := false } (Pipeline.new 1)
      { pipeline_id := 1, id := 0, encoding := Encoding.ascii, message := "x",
        next_id := none }).closed = true ∧
    (Pipelines.applyAll { discard_invalid_next_id := false }
        [{ pipeline_id := 1, id := 0, encoding := Encoding.ascii, message := "x",
           next_id := none }]).insert_message
      { pipeline_id := 1, id := 7, encoding := Encoding.ascii, message := "y",
        next_id := some 9 } =
      Pipelines.applyAll { discard_invalid_next_id := false }
        [{ pipeline_id := 1, id := 0, encoding := Encoding.ascii, message := "x",
           next_id := none }] :=
  ⟨(C2_closing { discard_invalid_next_id := false } (Pipeline.new 1)
      { pipeline_id := 1, id := 0, encoding := Encoding.ascii, message := "x",
        next_id := none }
      (Pipelines.new { discard_invalid_next_id := false })
      { pipeline_id := 1, id := 7, encoding := Encoding.ascii, message := "y",
        next_id := some 9 } (Pipeline.new 1)).1 rfl rfl rfl,
   (C2_closing { discard_invalid_next_id := false } (Pipeline.new 1)
      { pipeline_id := 1, id := 0, encoding := Encoding.ascii, message := "x",
        next_id := none }
      (Pipelines.applyAll { discard_invalid_next_id := false }
        [{ pipeline_id := 1, id := 0, encoding := Encoding.ascii, message := "x",
           next_id := none }])
      { pipeline_id := 1, id := 7, encoding := Encoding.ascii, message := "y",
        next_id := some 9 }
      { id := 1, next_id := none, closed := true,
        message := [{ id := 0, body := "x" }] }).2 rfl rfl⟩

/-- C3: with `discard_invalid_next_id = true`, a record whose id differs from the
Open target pipeline's expected next id leaves the whole registry unchanged. -/
theorem C3_discard_frame (ps : Pipelines) (msg : ParsedMessage) (p : Pipeline) (e : Nat)
    (hlk : plookup ps.inner msg.pipeline_id = some p)
    (hcfg : ps.config.discard_invalid_next_id = true)
    (hopen : p.closed = false) (hexp : p.next_id = some e) (hne : msg.id ≠ e) :
    ps.insert_message msg = ps := by
  have hgate : discardGate p msg ps.config = true := by
    unfold discardGate
    rw [hexp]
    simp [hne, hcfg]
  unfold Pipelines.insert_message
  rw [hlk]
  simp only [Option.getD_some]
  rw [applyRecord_discard ps.config p msg hopen hgate,
    pupdate_same ps.inner msg.pipeline_id p hlk]

/-- C3 witness: with the discard policy on, an out-of-sequence record (id 5 where
1 is expected) leaves the registry unchanged. -/
theorem C3_discard_frame_witness :
    (Pipelines.applyAll { discard_invalid_next_id := true }
        [{ pipeline_id := 1, id := 0, encoding := Encoding.ascii, message := "x",
           next_id := some 1 }]).insert_message
      { pipeline_id := 1, id := 5, encoding := Encoding.ascii, message := "y",
        next_id := some 7 } =
      Pipelines.applyAll { discard_invalid_next_id := true }
        [{ pipeline_id := 1, id := 0, encoding := Encoding.ascii, message := "x",
           next_id := some 1 }] :=
  C3_discard_frame
    (Pipelines.applyAll { discard_invalid_next_id := true }
      [{ pipeline_id := 1, id := 0, encoding := Encoding.ascii, message := "x",
         next_id := some 1 }])
    { pipeline_id := 1, id := 5, encoding := Encoding.ascii, message := "y",
      next_id := some 7 }
    { id := 1, next_id := some 1, closed := false, message := [{ id := 0, body := "x" }] }
    1 rfl rfl rfl rfl (by decide)

/-- C8: a line on which parsing fails leaves the registry completely unchanged:
no pipeline is created or mutated and no message is stored. -/
theorem C8_parse_failure_frame (ps : Pipelines) (line : String) (err : ParseError)
    (h : ParsedMessage.parse line = Except.error err) :
    ps.processLine line = ps := by
  unfold Pipelines.processLine
  rw [h]

/-- C8 witness: the malformed line `err` leaves a sample registry unchanged. -/
theorem C8_parse_failure_frame_witness :
    (Pipelines.applyAll { discard_invalid_next_id := false }
        [{ pipeline_id := 1, id := 0, encoding := Encoding.ascii, message := "x",
           next_id := some 1 }]).processLine "err" =
      Pipelines.applyAll { discard_invalid_next_id := false }
        [{ pipeline_id := 1, id := 0, encoding := Encoding.ascii, message := "x",
           next_id := some 1 }] :=
  C8_parse_failure_frame _ "err" ParseError.malformed rfl

/-- C9: in every reachable registry state, a closed pipeline has `next_id = none`:
the closing record sets both fields together and no later record touches them. -/
theorem C9_closed_no_expectation (cfg : PipelinesConfig) (msgs : List ParsedMessage)
    (k : Nat) (p : Pipeline)
    (h : plookup (Pipelines.applyAll cfg msgs).inner k = some p) (hc : p.closed = true) :
    p.next_id = none :=
  ((goodState_applyAll cfg msgs).2 k p h).2.1 hc

/-- C9 witness: the pipeline closed by the record `1 0 _ x -1` has no expected
next id. -/
theorem C9_closed_no_expectation_witness :
    ({ id := 1, next_id := none, closed := true,
       message := [{ id := 0, body := "x" }] } : Pipeline).next_id = none :=
  C9_closed_no_expectation { discard_invalid_next_id := false }
    [{ pipeline_id := 1, id := 0, encoding := Encoding.ascii, message := "x",
       next_id := none }] 1
    { id := 1, next_id := none, closed := true, message := [{ id := 0, body := "x" }] }
    rfl rfl

/-- C10: in every reachable registry state, the pipeline stored under key `k` has
its id field equal to `k`, so a rendered header always shows the id under which
the entry's messages were inserted. -/
theorem C10_key_matches_id (cfg : PipelinesConfig) (msgs : List ParsedMessage)
    (k : Nat) (p : Pipeline)
    (h : plookup (Pipelines.applyAll cfg msgs).inner k = some p) : p.id = k :=
  ((goodState_applyAll cfg msgs).2 k p h).1

/-- C10 witness: the entry stored under key 2 has id field 2. -/
theorem C10_key_matches_id_witness :
    ({ id := 2, next_id := some 3, closed := false,
       message := [{ id := 9, body := "z" }] } : Pipeline).id = 2 :=
  C10_key_matches_id { discard_invalid_next_id := false }
    [{ pipeline_id := 2, id := 9, encoding := Encoding.ascii, message := "z",
       next_id := some 3 }] 2
    { id := 2, next_id := some 3, closed := false, message := [{ id := 9, body := "z" }] }
    rfl

/-- C4: in every reachable registry state, `display` produces one block per
pipeline in strictly ascending pipeline-id order, and each block lists exactly
that pipeline's stored messages in ascending id order — strictly ascending when
the stored ids are distinct — irrespective of arrival order. -/
theorem C4_render_order (cfg : PipelinesConfig) (msgs : List ParsedMessage) :
    List.Sorted (fun a b : Nat × List Message => a.1 < b.1)
      (Pipelines.applyAll cfg msgs).displayBlocks ∧
    ((Pipelines.applyAll cfg msgs).displayBlocks.map Prod.fst).Perm
      ((Pipelines.applyAll cfg msgs).inner.map Prod.fst) ∧
    ∀ b ∈ (Pipelines.applyAll cfg msgs).displayBlocks,
      ∃ p, plookup (Pipelines.applyAll cfg msgs).inner b.1 = some p ∧
        b.2 = intoSortedVec p.message ∧ b.2.Perm p.message ∧
        List.Sorted (fun m1 m2 : Message => m1.id ≤ m2.id) b.2 ∧
        ((b.2.map Message.id).Nodup →
          List.Sorted (fun m1 m2 : Message => m1.id < m2.id) b.2) := by
  obtain ⟨hnd, hent⟩ := goodState_applyAll cfg msgs
  have hkeys : (Pipelines.applyAll cfg msgs).displayBlocks.map Prod.fst =
      (Pipelines.applyAll cfg msgs).sortedKeys := by
    apply displayBlocks_keys
    intro k hk
    have hkm : k ∈ (Pipelines.applyAll cfg msgs).inner.map Prod.fst :=
      (sortedKeys_perm _).mem_iff.mp hk
    obtain ⟨p, hp⟩ := plookup_isSome_of_mem _ k hkm
    exact ⟨p, hp, (hent k p hp).1⟩
  refine ⟨?_, ?_, ?_⟩
  · have hlt := sortedKeys_sorted_lt _ hnd
    rw [← hkeys] at hlt
    exact List.pairwise_map.mp hlt
  · rw [hkeys]
    exact sortedKeys_perm _
  · intro b hb
    obtain ⟨k, p, hp, hbe⟩ := mem_displayBlocks _ b hb
    have hgp := hent k p hp
    have hsvec := intoSortedVec_spec p.message hgp.2.2
    refine ⟨p, ?_, ?_, ?_, ?_, ?_⟩
    · rw [hbe]
      simp only
      rw [hgp.1]
      exact hp
    · rw [hbe]
    · rw [hbe]
      exact hsvec.2
    · rw [hbe]
      exact sortedIdx_sorted _ hsvec.1
    · rw [hbe]
      intro hndup
      exact sorted_lt_of_nodup _ (sortedIdx_sorted _ hsvec.1) hndup

/-- C4 witness: on a concrete three-record run the blocks are sorted, their keys
match the registry's, and the pipeline-1 block lists its two messages in
ascending id order. -/
theorem C4_render_order_witness :
    List.Sorted (fun a b : Nat × List Message => a.1 < b.1)
      (Pipelines.applyAll { discard_invalid_next_id := false }
        [{ pipeline_id := 1, id := 0, encoding := Encoding.ascii, message := "a",
           next_id := some 5 },
         { pipeline_id := 2, id := 9, encoding := Encoding.ascii, message := "c",
           next_id := some 2 },
         { pipeline_id := 1, id := 5, encoding := Encoding.ascii, message := "b",
           next_id := some 2 }]).displayBlocks ∧
    ∃ p, plookup (Pipelines.applyAll { discard_invalid_next_id := false }
        [{ pipeline_id := 1, id := 0, encoding := Encoding.ascii, message := "a",
           next_id := some 5 },
         { pipeline_id := 2, id := 9, encoding := Encoding.ascii, message := "c",
           next_id := some 2 },
         { pipeline_id := 1, id := 5, encoding := Encoding.ascii, message := "b",
           next_id := some 2 }]).inner
        ((1 : Nat), [({ id := 0, body := "a" } : Message), { id := 5, body := "b" }]).1 =
        some p ∧
      ((1 : Nat), [({ id := 0, body := "a" } : Message), { id := 5, body := "b" }]).2 =
        intoSortedVec p.message ∧
      ((1 : Nat), [({ id := 0, body := "a" } : Message), { id := 5, body := "b" }]).2.Perm
        p.message ∧
      List.Sorted (fun m1 m2 : Message => m1.id ≤ m2.id)
        ((1 : Nat), [({ id := 0, body := "a" } : Message), { id := 5, body := "b" }]).2 ∧
      ((((1 : Nat), [({ id := 0, body := "a" } : Message), { id := 5, body := "b" }]).2.map
          Message.id).Nodup →
        List.Sorted (fun m1 m2 : Message => m1.id < m2.id)
          ((1 : Nat), [({ id := 0, body := "a" } : Message), { id := 5, body := "b" }]).2) :=
  ⟨(C4_render_order { discard_invalid_next_id := false }
      [{ pipeline_id := 1, id := 0, encoding := Encoding.ascii, message := "a",
         next_id := some 5 },
       { pipeline_id := 2, id := 9, encoding := Encoding.ascii, message := "c",
         next_id := some 2 },
       { pipeline_id := 1, id := 5, encoding := Encoding.ascii, message := "b",
         next_id := some 2 }]).1,
   (C4_render_order { discard_invalid_next_id := false }
      [{ pipeline_id := 1, id := 0, encoding := Encoding.ascii, message := "a",
         next_id := some 5 },
       { pipeline_id := 2, id := 9, encoding := Encoding.ascii, message := "c",
         next_id := some 2 },
       { pipeline_id := 1, id := 5, encoding := Encoding.ascii, message := "b",
         next_id := some 2 }]).2.2
    ((1 : Nat), [({ id := 0, body := "a" } : Message), { id := 5, body := "b" }])
    (by decide)⟩

/-- C5 counterexample: two equal-id messages inserted in the order "a" then "b"
(pipeline 1's backing vector stores them in that insertion order) are rendered in
the order "b" then "a" — the heap's sort-on-render reverses them, so render does
not preserve insertion order for equal keys. -/
theorem C5_counterexample :
    (plookup (Pipelines.applyAll { discard_invalid_next_id := false }
      [{ pipeline_id := 1, id := 5, encoding := Encoding.ascii, message := "a",
         next_id := some 5 },
       { pipeline_id := 1, id := 5, encoding := Encoding.ascii, message := "b",
         next_id := some 5 }]).inner 1).map Pipeline.message =
      some [{ id := 5, body := "a" }, { id := 5, body := "b" }] ∧
    (Pipelines.applyAll { discard_invalid_next_id := false }
      [{ pipeline_id := 1, id := 5, encoding := Encoding.ascii, message := "a",
         next_id := some 5 },
       { pipeline_id := 1, id := 5, encoding := Encoding.ascii, message := "b",
         next_id := some 5 }]).displayBlocks =
      [(1, [{ id := 5, body := "b" }, { id := 5, body := "a" }])] ∧
    ({ id := 5, body := "a" } : Message) ≠ { id := 5, body := "b" } :=
  ⟨rfl, rfl, by decide⟩

/-- C5 amended: the heap-backed render is not stable for equal ids; when exactly
two messages with equal ids are pushed, `into_sorted_vec` lists them in reverse
push order. -/
theorem C5_equal_ids_reversed (x y : Message) (hxy : x.id = y.id) :
    intoSortedVec (heapPush (heapPush [] x) y) = [y, x] := by
  have h2 : heapPush (heapPush [] x) y = [x, y] := by
    show siftUpF 1 [x, y] 1 = [x, y]
    have hc : ¬ (hget [x, y] 0).id < (hget [x, y] 1).id := by
      show ¬ x.id < y.id
      rw [hxy]
      exact Nat.lt_irrefl _
    rw [show siftUpF 1 [x, y] 1 =
      if (hget [x, y] 0).id < (hget [x, y] 1).id then siftUpF 0 (swapL [x, y] 1 0) 0
      else [x, y] from rfl, if_neg hc]
  rw [h2]
  rfl

/-- C5 amended witness: pushing `5| "a"` then `5| "b"` renders as `5| "b"` then
`5| "a"`. -/
theorem C5_equal_ids_reversed_witness :
    intoSortedVec (heapPush (heapPush [] { id := 5, body := "a" })
      { id := 5, body := "b" }) = [{ id := 5, body := "b" }, { id := 5, body := "a" }] :=
  C5_equal_ids_reversed { id := 5, body := "a" } { id := 5, body := "b" } rfl

/-- C6 counterexample: the fifth token `32768` denotes the signed integer 32768,
which lies outside [-1, 255], yet parse fails with the malformed error (the
`i16` parse overflows) rather than `InvalidNextIdError`. -/
theorem C6_counterexample :
    tokenInt "32768" = some 32768 ∧
    ¬((32768 : Int) = -1 ∨ (0 ≤ (32768 : Int) ∧ (32768 : Int) ≤ 255)) ∧
    ParsedMessage.parse "0 0 0 x 32768" = Except.error ParseError.malformed ∧
    ParseError.malformed ≠ ParseError.invalidNextId :=
  ⟨rfl, by decide, rfl, by decide⟩

/-- C6 amended: on a line whose first four tokens parse (pipeline id, id, and a
known encoding) and whose fifth token denotes the signed integer `n`: `n = -1`
yields `next_id = none`; `n` in [0, 255] yields `next_id = some n`; `n` elsewhere
in the `i16` range [-32768, 32767] fails with `InvalidNextIdError`; and `n`
outside the `i16` range fails with the malformed-record error. -/
theorem C6_next_id_parse (line : String) (s0 s1 s2 s3 s4 : String) (rest : List String)
    (hsplit : splitLine line = s0 :: s1 :: s2 :: s3 :: s4 :: rest)
    (p0 i1 eb : Nat) (enc : Encoding) (n : Int)
    (h0 : parseU8 s0 = some p0) (h1 : parseU8 s1 = some i1)
    (h2 : parseU8 s2 = some eb) (henc : Encoding.tryFrom eb = some enc)
    (hn : tokenInt s4 = some n) :
    (n = -1 → ParsedMessage.parse line = Except.ok ⟨p0, i1, enc, s3, none⟩) ∧
    (0 ≤ n ∧ n ≤ 255 →
      ParsedMessage.parse line = Except.ok ⟨p0, i1, enc, s3, some n.toNat⟩) ∧
    ((-32768 ≤ n ∧ n < -1) ∨ (255 < n ∧ n ≤ 32767) →
      ParsedMessage.parse line = Except.error ParseError.invalidNextId) ∧
    ((n < -32768 ∨ 32767 < n) →
      ParsedMessage.parse line = Except.error ParseError.malformed) := by
  have hline : ParsedMessage.parse line = parseTokens (s0 :: s1 :: s2 :: s3 :: s4 :: rest) := by
    unfold ParsedMessage.parse
    rw [hsplit]
  refine ⟨?_, ?_, ?_, ?_⟩
  · intro hn1
    have hi16 : parseI16 s4 = some n := by
      rw [parseI16_of_tokenInt s4 n hn, if_pos (by omega)]
    rw [hline, parseTokens_eq s0 s1 s2 s3 s4 rest p0 i1 eb enc n h0 h1 h2 henc hi16,
      if_pos hn1]
  · intro hn2
    have hi16 : parseI16 s4 = some n := by
      rw [parseI16_of_tokenInt s4 n hn, if_pos (by omega)]
    rw [hline, parseTokens_eq s0 s1 s2 s3 s4 rest p0 i1 eb enc n h0 h1 h2 henc hi16,
      if_neg (by omega), if_pos hn2]
  · intro hn3
    have hi16 : parseI16 s4 = some n := by
      rw [parseI16_of_tokenInt s4 n hn, if_pos (by omega)]
    rw [hline, parseTokens_eq s0 s1 s2 s3 s4 rest p0 i1 eb enc n h0 h1 h2 henc hi16,
      if_neg (by omega), if_neg (by omega)]
  · intro hn4
    have hi16 : parseI16 s4 = none := by
      rw [parseI16_of_tokenInt s4 n hn, if_neg (by omega)]
    rw [hline]
    simp [parseTokens, req, h0, h1, h2, henc, hi16, Bind.bind, Except.bind]

/-- C6 amended witness: the line `7 8 0 x -1` exercises the amended claim at
`n = -1`. -/
theorem C6_next_id_parse_witness :
    ((-1 : Int) = -1 →
      ParsedMessage.parse "7 8 0 x -1" = Except.ok ⟨7, 8, Encoding.ascii, "x", none⟩) ∧
    (0 ≤ (-1 : Int) ∧ (-1 : Int) ≤ 255 →
      ParsedMessage.parse "7 8 0 x -1" =
        Except.ok ⟨7, 8, Encoding.ascii, "x", some (-1 : Int).toNat⟩) ∧
    ((-32768 ≤ (-1 : Int) ∧ (-1 : Int) < -1) ∨ (255 < (-1 : Int) ∧ (-1 : Int) ≤ 32767) →
      ParsedMessage.parse "7 8 0 x -1" = Except.error ParseError.invalidNextId) ∧
    (((-1 : Int) < -32768 ∨ 32767 < (-1 : Int)) →
      ParsedMessage.parse "7 8 0 x -1" = Except.error ParseError.malformed) :=
  C6_next_id_parse "7 8 0 x -1" "7" "8" "0" "x" "-1" [] rfl 7 8 0 Encoding.ascii (-1)
    rfl rfl rfl rfl rfl

/-- C7: on a line whose first two tokens parse and whose third token parses as the
byte `b`, the encoding stage succeeds exactly when `b` is 0 (Ascii) or 1 (Hex);
for every other byte value parse fails with `UnknownEncodingError` and no record
is produced. -/
theorem C7_encoding_gate (line : String) (s0 s1 s2 : String) (rest : List String)
    (hsplit : splitLine line = s0 :: s1 :: s2 :: rest)
    (p0 i1 b : Nat)
    (h0 : parseU8 s0 = some p0) (h1 : parseU8 s1 = some i1) (h2 : parseU8 s2 = some b) :
    ((b = 0 ∨ b = 1) ↔ ∃ enc, Encoding.tryFrom b = some enc) ∧
    (b = 0 → Encoding.tryFrom b = some Encoding.ascii) ∧
    (b = 1 → Encoding.tryFrom b = some Encoding.hex) ∧
    (¬(b = 0 ∨ b = 1) → ParsedMessage.parse line = Except.error ParseError.unknownEncoding) ∧
    (∀ pm, ParsedMessage.parse line = Except.ok pm →
      (b = 0 → pm.encoding = Encoding.ascii) ∧ (b = 1 → pm.encoding = Encoding.hex)) := by
  have hline : ParsedMessage.parse line = parseTokens (s0 :: s1 :: s2 :: rest) := by
    unfold ParsedMessage.parse
    rw [hsplit]
  refine ⟨?_, ?_, ?_, ?_, ?_⟩
  · constructor
    · rintro (hb | hb) <;> subst hb
      · exact ⟨Encoding.ascii, rfl⟩
      · exact ⟨Encoding.hex, rfl⟩
    · rintro ⟨enc, henc⟩
      by_contra hb
      have hb0 : b ≠ 0 := fun h => hb (Or.inl h)
      have hb1 : b ≠ 1 := fun h => hb (Or.inr h)
      simp [Encoding.tryFrom, hb0, hb1] at henc
  · intro hb
    subst hb
    rfl
  · intro hb
    subst hb
    rfl
  · intro hb
    have hb0 : b ≠ 0 := fun h => hb (Or.inl h)
    have hb1 : b ≠ 1 := fun h => hb (Or.inr h)
    have htf : Encoding.tryFrom b = none := by simp [Encoding.tryFrom, hb0, hb1]
    rw [hline]
    exact parseTokens_unknownEnc s0 s1 s2 rest p0 i1 b h0 h1 h2 htf
  · intro pm hok
    rw [hline] at hok
    constructor
    · intro hb
      subst hb
      cases rest with
      | nil => simp [parseTokens, req, h0, h1, h2, Bind.bind, Except.bind, Encoding.tryFrom] at hok
      | cons t3 r2 =>
        cases r2 with
        | nil =>
          simp [parseTokens, req, h0, h1, h2, Bind.bind, Except.bind, Encoding.tryFrom] at hok
        | cons t4 r3 =>
          exact parseTokens_encoding_ok s0 s1 s2 t3 t4 r3 p0 i1 0 Encoding.ascii
            h0 h1 h2 rfl pm hok
    · intro hb
      subst hb
      cases rest with
      | nil => simp [parseTokens, req, h0, h1, h2, Bind.bind, Except.bind, Encoding.tryFrom] at hok
      | cons t3 r2 =>
        cases r2 with
        | nil =>
          simp [parseTokens, req, h0, h1, h2, Bind.bind, Except.bind, Encoding.tryFrom] at hok
        | cons t4 r3 =>
          exact parseTokens_encoding_ok s0 s1 s2 t3 t4 r3 p0 i1 1 Encoding.hex
            h0 h1 h2 rfl pm hok

/-- C7 witness: byte 1 maps to Hex on the line `1 2 1 AB 3`, and byte 7 on the
line `1 2 7 x 3` makes parse fail with the unknown-encoding error. -/
theorem C7_encoding_gate_witness :
    (((1 : Nat) = 0 ∨ (1 : Nat) = 1) ↔ ∃ enc, Encoding.tryFrom 1 = some enc) ∧
    ({ pipeline_id := 1, id := 2, encoding := Encoding.hex, message := "AB",
       next_id := some 3 } : ParsedMessage).encoding = Encoding.hex ∧
    ParsedMessage.parse "1 2 7 x 3" = Except.error ParseError.unknownEncoding :=
  ⟨(C7_encoding_gate "1 2 1 AB 3" "1" "2" "1" ["AB", "3"] rfl 1 2 1 rfl rfl rfl).1,
   ((C7_encoding_gate "1 2 1 AB 3" "1" "2" "1" ["AB", "3"] rfl 1 2 1 rfl rfl rfl).2.2.2.2
     ⟨1, 2, Encoding.hex, "AB", some 3⟩ rfl).2 rfl,
   (C7_encoding_gate "1 2 7 x 3" "1" "2" "7" ["x", "3"] rfl 1 2 7 rfl rfl rfl).2.2.2.1
     (by decide)⟩
